/-
  Verification of the bytez package: a parser (AsInt) and a formatter (AsStr) for
  human-readable byte sizes, together with the Size text-marshalling wrapper and the
  earlier formatter implementation (AsString).

  Go strings are modelled as `List Char` (all data exercised by the properties below is
  ASCII, where Go's byte indexing and Lean's character lists agree), uint64 arithmetic
  as `Nat` with explicit reduction modulo `U64 = 2 ^ 64` wherever the Go code can
  overflow, and fallible functions return their value paired with an optional error
  message, mirroring Go's `(uint64, error)` multiple return.
-/
import Mathlib

/-- The modulus of Go's uint64 arithmetic. -/
def U64 : Nat := 2 ^ 64

/-- Decimal (SI) constant: `Kilobyte uint64 = 1000`. -/
def Kilobyte : Nat := 1000

/-- `Megabyte = Kilobyte * 1000`. -/
def Megabyte : Nat := Kilobyte * 1000

/-- `Gigabyte = Megabyte * 1000`. -/
def Gigabyte : Nat := Megabyte * 1000

/-- `Terabyte = Gigabyte * 1000`. -/
def Terabyte : Nat := Gigabyte * 1000

/-- `Petabyte = Terabyte * 1000`. -/
def Petabyte : Nat := Terabyte * 1000

/-- `Exabyte = Petabyte * 1000`. -/
def Exabyte : Nat := Petabyte * 1000

/-- Binary (ISO/IEC) constant: `Kibibyte uint64 = 1024`. -/
def Kibibyte : Nat := 1024

/-- `Mebibyte = Kibibyte * 1024`. -/
def Mebibyte : Nat := Kibibyte * 1024

/-- `Gibibyte = Mebibyte * 1024`. -/
def Gibibyte : Nat := Mebibyte * 1024

/-- `Tebibyte = Gibibyte * 1024`. -/
def Tebibyte : Nat := Gibibyte * 1024

/-- `Pebibyte = Tebibyte * 1024`. -/
def Pebibyte : Nat := Tebibyte * 1024

/-- `Exbibyte = Pebibyte * 1024`. -/
def Exbibyte : Nat := Pebibyte * 1024

/-- The `unitMap` table, label to multiplier.  Go's map is modelled as an association
list; its keys are pairwise distinct, so lookup order is irrelevant. -/
def unitMap : List (List Char × Nat) :=
  [("k".toList, Kilobyte), ("kb".toList, Kilobyte), ("kB".toList, Kilobyte),
   ("m".toList, Megabyte), ("mb".toList, Megabyte), ("mB".toList, Megabyte),
   ("g".toList, Gigabyte), ("gb".toList, Gigabyte), ("gB".toList, Gigabyte),
   ("t".toList, Terabyte), ("tb".toList, Terabyte), ("tB".toList, Terabyte),
   ("p".toList, Petabyte), ("pb".toList, Petabyte), ("pB".toList, Petabyte),
   ("e".toList, Exabyte), ("eb".toList, Exabyte), ("eB".toList, Exabyte),
   ("K".toList, Kibibyte), ("KB".toList, Kibibyte), ("Kb".toList, Kibibyte),
   ("KiB".toList, Kibibyte),
   ("M".toList, Mebibyte), ("MB".toList, Mebibyte), ("Mb".toList, Mebibyte),
   ("MiB".toList, Mebibyte),
   ("G".toList, Gibibyte), ("GB".toList, Gibibyte), ("Gb".toList, Gibibyte),
   ("GiB".toList, Gibibyte),
   ("T".toList, Tebibyte), ("TB".toList, Tebibyte), ("Tb".toList, Tebibyte),
   ("TiB".toList, Tebibyte),
   ("P".toList, Pebibyte), ("PB".toList, Pebibyte), ("Pb".toList, Pebibyte),
   ("PiB".toList, Pebibyte),
   ("E".toList, Exbibyte), ("EB".toList, Exbibyte), ("Eb".toList, Exbibyte),
   ("EiB".toList, Exbibyte)]

/-- `unitsBase2 = []string{"", "KiB", "MiB", "GiB", "TiB", "PiB", "EiB"}`. -/
def unitsBase2 : List (List Char) :=
  [[], "KiB".toList, "MiB".toList, "GiB".toList, "TiB".toList, "PiB".toList, "EiB".toList]

/-- `unitsBase10 = []string{"", "kb", "mb", "gb", "tb", "pb", "eb"}`. -/
def unitsBase10 : List (List Char) :=
  [[], "kb".toList, "mb".toList, "gb".toList, "tb".toList, "pb".toList, "eb".toList]

/-- `valuesBase2 = []uint64{1, Kibibyte, ..., Exbibyte}` (current file, index 0 is 1). -/
def valuesBase2 : List Nat :=
  [1, Kibibyte, Mebibyte, Gibibyte, Tebibyte, Pebibyte, Exbibyte]

/-- `valuesBase10 = []uint64{1, Kilobyte, ..., Exabyte}` (current file, index 0 is 1). -/
def valuesBase10 : List Nat :=
  [1, Kilobyte, Megabyte, Gigabyte, Terabyte, Petabyte, Exabyte]

/-- The character for a decimal digit, `d + '0'` as in strconv. -/
def digitChar (d : Nat) : Char := Char.ofNat (48 + d)

/-- Fuel-driven digit accumulator behind `formatUint`.  Each step emits the lowest
remaining digit in front of `acc` and recurses on `n / 10`, exactly the digit loop of
Go's `strconv.FormatUint(n, 10)`. -/
def fmtAux : Nat → Nat → List Char → List Char
  | 0, _, acc => acc
  | fuel + 1, n, acc =>
    if n < 10 then digitChar n :: acc
    else fmtAux fuel (n / 10) (digitChar (n % 10) :: acc)

/-- Models Go `strconv.FormatUint(n, 10)`: the plain decimal digit string of `n`.
The fuel 20 covers every `n < 10 ^ 20`, in particular every uint64 value. -/
def formatUint (n : Nat) : List Char := fmtAux 20 n []

/-- The digit-scanning loop of `AsInt`: consumes the leading run of ASCII decimal
digits, accumulating `num = num*10 + (c - '0')` in uint64 arithmetic and counting the
consumed characters in `i`; stops at the first byte outside `'0'..'9'`. -/
def scanNum (num i : Nat) : List Char → Nat × Nat × List Char
  | [] => (num, i, [])
  | c :: cs =>
    if c.toNat < 48 ∨ 57 < c.toNat then (num, i, c :: cs)
    else scanNum ((num * 10 + (c.toNat - 48)) % U64) (i + 1) cs

/-- Membership in the cutset `" \t\r\n"` of `strings.Trim`, by byte value
(32, 9, 13, 10). -/
def isCut (c : Char) : Bool := c.toNat = 32 || c.toNat = 9 || c.toNat = 13 || c.toNat = 10

/-- Strip leading cutset characters. -/
def trimLeft : List Char → List Char
  | [] => []
  | c :: cs => if isCut c then trimLeft cs else c :: cs

/-- Models Go `strings.Trim(str, " \t\r\n")`: strip the cutset from both ends. -/
def trimStr (s : List Char) : List Char :=
  (trimLeft (trimLeft s).reverse).reverse

/-- The fractional-suffix step of `AsInt`: at the first non-digit, an optional
exact `".5"` (sets the half flag) or `".0"` is consumed; any other text after a
leading `'.'` (including a bare trailing `'.'`) is an invalid fractional part,
reported as `none`. -/
def fracStage (r : List Char) : Option (Nat × List Char) :=
  match r with
  | c :: c2 :: rest =>
    if c = '.' then
      if c2 = '5' then some (1, rest)
      else if c2 = '0' then some (0, rest)
      else none
    else some (0, c :: c2 :: rest)
  | c :: [] => if c = '.' then none else some (0, [c])
  | [] => some (0, [])

/-- The single-space step of `AsInt`: one space (not a tab, not two spaces) may
separate the number from the units. -/
def spaceStage (r : List Char) : List Char :=
  match r with
  | c :: rest => if c = ' ' then rest else c :: rest
  | [] => []

/-- ASCII restriction of Go `unicode.IsLetter` applied to a single byte, by byte value
(`'A'..'Z'` is 65..90, `'a'..'z'` is 97..122).  All inputs exercised by the properties
below are ASCII, where the two agree. -/
def isLetter (c : Char) : Bool :=
  (65 ≤ c.toNat && c.toNat ≤ 90) || (97 ≤ c.toNat && c.toNat ≤ 122)

/-- The unit-lookup step of `AsInt`: an empty remaining suffix is "missing units", a
suffix not starting with a letter is an "invalid delimiter", an unknown label is
"invalid units"; otherwise `num *= val; num += val / 2 * addHalf` in uint64
arithmetic. -/
def unitsStage (num addHalf : Nat) (rest : List Char) : Nat × Option String :=
  match rest with
  | [] => (0, some "missing units")
  | c :: _ =>
    if isLetter c = false then (0, some "invalid delimiter")
    else
      match List.lookup rest unitMap with
      | some val => ((num * val % U64 + val / 2 * addHalf) % U64, none)
      | none => (0, some "invalid units")

/-- `AsInt` from the current file: trim the input, scan the leading digit run, and
either return the bare number, or consume the optional fraction, the optional single
space and the unit label.  Returns the Go pair `(uint64, error)`. -/
def AsInt (input : List Char) : Nat × Option String :=
  let str := trimStr input
  let scanned := scanNum 0 0 str
  let num := scanned.1
  let i := scanned.2.1
  let rest := scanned.2.2
  if i = 0 then (0, some "no number in string")
  else if rest = [] then (num, none)
  else
    match fracStage rest with
    | none => (0, some "invalid fractional part")
    | some (addHalf, rest1) => unitsStage num addHalf (spaceStage rest1)

/-- Fuel-driven body of `scaleIdx`. -/
def scaleIdxAux : Nat → Nat → Nat → Nat
  | 0, _, _ => 0
  | fuel + 1, base, sz =>
    if base ≤ sz then scaleIdxAux fuel base (sz / base) + 1 else 0

/-- The scale-index loop of `AsStr`:
`for sz := size; sz >= base; sz /= base { idx++ }`.
The fuel 64 covers every `sz < 2 ^ 64` for every `base ≥ 2`. -/
def scaleIdx (base sz : Nat) : Nat := scaleIdxAux 64 base sz

/-- The shared formatting tail of `AsStr` after `base`, `values` and `units` have been
selected: compute the scale index, print `size / values[idx]`, append `".5"` when the
remainder is nonzero, and append the unit label. -/
def fmtScaled (base : Nat) (values : List Nat) (units : List (List Char)) (size : Nat) :
    List Char :=
  let idx := scaleIdx base size
  formatUint (size / values.getD idx 0) ++
    (if size % values.getD idx 0 ≠ 0 then ['.', '5'] else []) ++ units.getD idx []

/-- `AsStr` from the current file: sizes below 1000 print as plain digits; sizes
divisible by 500 use the decimal family, otherwise sizes divisible by 512 use the
binary family, otherwise the plain digit string is returned. -/
def AsStr (size : Nat) : List Char :=
  if size < 1000 then formatUint size
  else if size % 500 = 0 then fmtScaled 1000 valuesBase10 unitsBase10 size
  else if size % 512 = 0 then fmtScaled 1024 valuesBase2 unitsBase2 size
  else formatUint size

/-- `valuesBase10` of the earlier file (part_001), whose index 0 is 0, not 1. -/
def valuesBase10V1 : List Nat :=
  [0, Kilobyte, Megabyte, Gigabyte, Terabyte, Petabyte, Exabyte]

/-- `valuesBase2` of the earlier file (part_001), whose index 0 is 0, not 1. -/
def valuesBase2V1 : List Nat :=
  [0, Kibibyte, Mebibyte, Gibibyte, Tebibyte, Pebibyte, Exbibyte]

/-- `AsString` from the earlier file (part_001), which picks the scale index from the
digit count.  The calls `int(math.Log10(float64(size)))` and
`int(math.Log2(float64(size)))` are modelled by the exact floor logarithms
`scaleIdx 10 size` and `scaleIdx 2 size`; at the inputs where the theorems below
evaluate `AsString` (powers of two, where Go's `math.Log2` is exact by its
`Frexp`-based special case), the float computation and this model agree. -/
def AsString (size : Nat) : List Char :=
  if size < 1000 then formatUint size
  else if size % 500 = 0 then
    let numDigits := scaleIdx 10 size + 1
    let i := numDigits / 3
    formatUint (size / valuesBase10V1.getD i 0) ++
      (if size % valuesBase10V1.getD i 0 ≠ 0 then ['.', '5'] else []) ++
      unitsBase10.getD i []
  else if size % 512 = 0 then
    let numDigits := scaleIdx 2 size + 1
    let i := numDigits / 9
    formatUint (size / valuesBase2V1.getD i 0) ++
      (if size % valuesBase2V1.getD i 0 ≠ 0 then ['.', '5'] else []) ++
      unitsBase2.getD i []
  else formatUint size

/-- The `Size` wrapper type, `type Size uint64`. -/
abbrev Size := Nat

/-- `Size.UnmarshalText`: parse with `AsInt`; on error the receiver is unchanged and
the error is returned, on success the receiver becomes the parsed value.  The result
pairs the new receiver value with the returned error. -/
def Size.UnmarshalText (sz : Size) (bs : List Char) : Size × Option String :=
  match AsInt bs with
  | (val, none) => (val, none)
  | (_, some e) => (sz, some e)

/-- `Size.MarshalText`: format with `AsStr`; the error is always nil. -/
def Size.MarshalText (sz : Size) : List Char × Option String :=
  (AsStr sz, none)

/-- The multiplier `values[idx]` that `AsStr` scales by, as a function of the input:
1 in the plain-digit branches, `1000 ^ idx` in the decimal branch and `1024 ^ idx` in
the binary branch.  Used to state when the formatter's output parses back exactly. -/
def chosenMult (v : Nat) : Nat :=
  if v < 1000 then 1
  else if v % 500 = 0 then 1000 ^ scaleIdx 1000 v
  else if v % 512 = 0 then 1024 ^ scaleIdx 1024 v
  else 1

/-- The characters of the optional fractional suffix: nothing, `".0"`, or `".5"`. -/
def fracChars : Option Bool → List Char
  | none => []
  | some false => ['.', '0']
  | some true => ['.', '5']

/-- The half-unit flag value set by the fractional suffix. -/
def fracHalf : Option Bool → Nat
  | some true => 1
  | _ => 0

/-- The characters of the optional single space before the unit label. -/
def spChars : Bool → List Char
  | true => [' ']
  | false => []

/-- The case-disambiguation property of one unit-table entry: a label whose first
letter is lowercase maps to a power of 1000 (1 through 6), and one whose first letter
is uppercase maps to a power of 1024 (1 through 6). -/
def caseFamilyProp (lm : List Char × Nat) : Prop :=
  lm.1.head?.elim True fun c =>
    ((97 ≤ c.toNat ∧ c.toNat ≤ 122) →
      (lm.2 = 1000 ^ 1 ∨ lm.2 = 1000 ^ 2 ∨ lm.2 = 1000 ^ 3 ∨ lm.2 = 1000 ^ 4 ∨
       lm.2 = 1000 ^ 5 ∨ lm.2 = 1000 ^ 6)) ∧
    ((65 ≤ c.toNat ∧ c.toNat ≤ 90) →
      (lm.2 = 1024 ^ 1 ∨ lm.2 = 1024 ^ 2 ∨ lm.2 = 1024 ^ 3 ∨ lm.2 = 1024 ^ 4 ∨
       lm.2 = 1024 ^ 5 ∨ lm.2 = 1024 ^ 6))

instance caseFamilyPropDec (lm : List Char × Nat) : Decidable (caseFamilyProp lm) := by
  unfold caseFamilyProp
  cases lm.1.head? with
  | none => exact inferInstanceAs (Decidable True)
  | some c => exact inferInstanceAs (Decidable (_ ∧ _))

/-! ### Digit characters and the scanner -/

lemma digitChar_toNat {d : Nat} (h : d < 10) : (digitChar d).toNat = 48 + d := by
  interval_cases d <;> decide

lemma digitChar_digit {d : Nat} (h : d < 10) :
    48 ≤ (digitChar d).toNat ∧ (digitChar d).toNat ≤ 57 := by
  rw [digitChar_toNat h]
  omega

lemma isCut_of_digit {c : Char} (h : 48 ≤ c.toNat ∧ c.toNat ≤ 57) : isCut c = false := by
  simp only [isCut, Bool.or_eq_false_iff, decide_eq_false_iff_not]
  omega

lemma isLetter_facts {c : Char} (h : isLetter c = true) :
    (c.toNat < 48 ∨ 57 < c.toNat) ∧ isCut c = false ∧ c ≠ '.' ∧ c ≠ ' ' := by
  simp only [isLetter, Bool.or_eq_true, Bool.and_eq_true, decide_eq_true_eq] at h
  refine ⟨by omega, ?_, ?_, ?_⟩
  · simp only [isCut, Bool.or_eq_false_iff, decide_eq_false_iff_not]
    omega
  · rintro rfl
    revert h
    decide
  · rintro rfl
    revert h
    decide

lemma trimLeft_eq_self {s : List Char} (h : ∀ c, s.head? = some c → isCut c = false) :
    trimLeft s = s := by
  cases s with
  | nil => rfl
  | cons c cs => simp [trimLeft, h c rfl]

lemma trimStr_eq_self {s : List Char} (h1 : ∀ c, s.head? = some c → isCut c = false)
    (h2 : ∀ c, s.getLast? = some c → isCut c = false) : trimStr s = s := by
  unfold trimStr
  rw [trimLeft_eq_self h1]
  rw [trimLeft_eq_self fun c hc => h2 c (by rw [← List.head?_reverse]; exact hc)]
  exact List.reverse_reverse s

lemma scanNum_append {L : List Char} (hL : ∀ c ∈ L, 48 ≤ c.toNat ∧ c.toNat ≤ 57)
    {rest : List Char} (hr : ∀ c, rest.head? = some c → c.toNat < 48 ∨ 57 < c.toNat)
    (num i : Nat) :
    scanNum num i (L ++ rest) =
      (List.foldl (fun a c => (a * 10 + (c.toNat - 48)) % U64) num L, i + L.length, rest) := by
  induction L generalizing num i with
  | nil =>
    simp only [List.nil_append, List.foldl_nil, List.length_nil, Nat.add_zero]
    cases rest with
    | nil => rfl
    | cons c cs =>
      have hc := hr c rfl
      simp only [scanNum]
      rw [if_pos hc]
  | cons d L ih =>
    have hd := hL d (List.mem_cons_self d L)
    simp only [List.cons_append, scanNum]
    rw [if_neg (by omega)]
    simp only [List.append_eq]
    rw [ih (fun c hc => hL c (List.mem_cons_of_mem d hc))]
    simp only [List.foldl_cons, List.length_cons]
    have : i + 1 + L.length = i + (L.length + 1) := by omega
    rw [this]

/-! ### The digit formatter -/

lemma fmtAux_spec : ∀ fuel n acc, 1 ≤ fuel → n < 10 ^ fuel →
    ∃ L, fmtAux fuel n acc = L ++ acc ∧ L ≠ [] ∧
      (∀ c ∈ L, 48 ≤ c.toNat ∧ c.toNat ≤ 57) ∧
      ∀ a, List.foldl (fun x c => (x * 10 + (c.toNat - 48)) % U64) a L =
        (a * 10 ^ L.length + n) % U64 := by
  intro fuel
  induction fuel with
  | zero => intro n acc h; omega
  | succ fuel ih =>
    intro n acc _ hn
    by_cases h10 : n < 10
    · refine ⟨[digitChar n], by simp [fmtAux, h10], by simp, ?_, ?_⟩
      · intro c hc
        rw [List.mem_singleton] at hc
        subst hc
        exact digitChar_digit h10
      · intro a
        simp only [List.foldl_cons, List.foldl_nil, List.length_singleton, pow_one]
        rw [digitChar_toNat h10]
        norm_num
    · have hfuel : 1 ≤ fuel := by
        rcases Nat.eq_zero_or_pos fuel with hf | hf
        · subst hf
          norm_num at hn
          omega
        · exact hf
      have hdiv : n / 10 < 10 ^ fuel := by
        rw [Nat.div_lt_iff_lt_mul (by norm_num : 0 < 10)]
        calc n < 10 ^ (fuel + 1) := hn
          _ = 10 ^ fuel * 10 := pow_succ 10 fuel
      obtain ⟨L', hEq, hne, hdig, hval⟩ := ih (n / 10) (digitChar (n % 10) :: acc) hfuel hdiv
      have hm10 : n % 10 < 10 := Nat.mod_lt _ (by norm_num)
      refine ⟨L' ++ [digitChar (n % 10)], ?_, by simp, ?_, ?_⟩
      · simp only [fmtAux, if_neg h10]
        rw [hEq, List.append_assoc, List.singleton_append]
      · intro c hc
        rcases List.mem_append.mp hc with h | h
        · exact hdig c h
        · rw [List.mem_singleton] at h
          subst h
          exact digitChar_digit hm10
      · intro a
        rw [List.foldl_append, hval a]
        simp only [List.foldl_cons, List.foldl_nil, List.length_append,
          List.length_singleton]
        rw [digitChar_toNat hm10]
        have hstep : (48 + n % 10 - 48) = n % 10 := by omega
        rw [hstep]
        rw [Nat.add_mod, Nat.mod_mul_mod, ← Nat.add_mod]
        congr 1
        have hdm : 10 * (n / 10) + n % 10 = n := Nat.div_add_mod n 10
        calc (a * 10 ^ L'.length + n / 10) * 10 + n % 10
            = a * (10 ^ L'.length * 10) + (10 * (n / 10) + n % 10) := by ring
          _ = a * 10 ^ (L'.length + 1) + n := by rw [hdm, pow_succ]

lemma formatUint_spec {n : Nat} (hn : n < 10 ^ 20) :
    formatUint n ≠ [] ∧ (∀ c ∈ formatUint n, 48 ≤ c.toNat ∧ c.toNat ≤ 57) ∧
      ∀ a, List.foldl (fun x c => (x * 10 + (c.toNat - 48)) % U64) a (formatUint n) =
        (a * 10 ^ (formatUint n).length + n) % U64 := by
  obtain ⟨L, hEq, hne, hdig, hval⟩ := fmtAux_spec 20 n [] (by norm_num) hn
  rw [List.append_nil] at hEq
  unfold formatUint
  rw [hEq]
  exact ⟨hne, hdig, hval⟩

/-! ### Parsing a bare digit string -/

lemma U64_lt_pow20 : U64 < 10 ^ 20 := by norm_num [U64]

lemma nil_head_nodigit : ∀ c : Char, ([] : List Char).head? = some c →
    c.toNat < 48 ∨ 57 < c.toNat := by
  intro c hc
  simp at hc

lemma AsInt_formatUint {n : Nat} (hn : n < 10 ^ 20) :
    AsInt (formatUint n) = (n % U64, none) := by
  obtain ⟨hfne, hdig, hval⟩ := formatUint_spec hn
  have htrim : trimStr (formatUint n) = formatUint n := by
    apply trimStr_eq_self
    · intro c hc
      apply isCut_of_digit
      exact hdig c (List.mem_of_mem_head? hc)
    · intro c hc
      apply isCut_of_digit
      have hmem : c ∈ (formatUint n).getLast? := by rw [hc]; rfl
      obtain ⟨h9, rfl⟩ := List.mem_getLast?_eq_getLast hmem
      exact hdig _ (List.getLast_mem h9)
  have hscan := scanNum_append hdig nil_head_nodigit 0 0
  rw [List.append_nil] at hscan
  have hlen : (formatUint n).length ≠ 0 := fun h => hfne (List.length_eq_zero.mp h)
  simp only [AsInt]
  rw [htrim, hscan]
  simp only []
  rw [if_neg (by omega : ¬ (0 + (formatUint n).length = 0))]
  rw [if_pos trivial]
  rw [hval 0]
  norm_num

/-! ### Parsing digits followed by a suffix -/

lemma AsInt_append {n : Nat} (hn : n < U64) {rest : List Char} (hne : rest ≠ [])
    (hhd : ∀ c, rest.head? = some c → c.toNat < 48 ∨ 57 < c.toNat)
    (hlast : ∀ c, rest.getLast? = some c → isCut c = false) :
    AsInt (formatUint n ++ rest) =
      match fracStage rest with
      | none => (0, some "invalid fractional part")
      | some (addHalf, rest1) => unitsStage n addHalf (spaceStage rest1) := by
  have hn20 : n < 10 ^ 20 := lt_trans hn U64_lt_pow20
  obtain ⟨hfne, hdig, hval⟩ := formatUint_spec hn20
  obtain ⟨d, ds, hF⟩ := List.exists_cons_of_ne_nil hfne
  have htrim : trimStr (formatUint n ++ rest) = formatUint n ++ rest := by
    apply trimStr_eq_self
    · intro c hc
      rw [hF, List.cons_append, List.head?_cons, Option.some_inj] at hc
      subst hc
      exact isCut_of_digit (hdig d (by rw [hF]; exact List.mem_cons_self _ _))
    · intro c hc
      rw [List.getLast?_append_of_ne_nil _ hne] at hc
      exact hlast c hc
  have hscan := scanNum_append hdig hhd 0 0
  have hlen : (formatUint n).length ≠ 0 := fun h => hfne (List.length_eq_zero.mp h)
  simp only [AsInt]
  rw [htrim, hscan]
  simp only []
  rw [if_neg (by omega : ¬ (0 + (formatUint n).length = 0))]
  rw [if_neg hne]
  rw [hval 0]
  have hnum : (0 * 10 ^ (formatUint n).length + n) % U64 = n := by
    rw [Nat.zero_mul, Nat.zero_add, Nat.mod_eq_of_lt hn]
  rw [hnum]

/-! ### Unit-table facts -/

lemma unitMap_lookup_self : ∀ lm ∈ unitMap, List.lookup lm.1 unitMap = some lm.2 := by
  decide

lemma unitMap_labels : ∀ lm ∈ unitMap,
    lm.1 ≠ [] ∧ (∀ c ∈ lm.1, isLetter c = true) ∧ 1000 ≤ lm.2 := by
  decide

lemma label_head_facts {label : List Char} (hne : label ≠ [])
    (hlet : ∀ c ∈ label, isLetter c = true) :
    ∃ l1 ls, label = l1 :: ls ∧ isLetter l1 = true ∧ l1 ≠ '.' ∧ l1 ≠ ' ' ∧
      (l1.toNat < 48 ∨ 57 < l1.toNat) := by
  obtain ⟨l1, ls, rfl⟩ := List.exists_cons_of_ne_nil hne
  have h1 := hlet l1 (List.mem_cons_self _ _)
  obtain ⟨hd, _, hdot, hsp⟩ := isLetter_facts h1
  exact ⟨l1, ls, rfl, h1, hdot, hsp, hd⟩

lemma label_getLast_noncut {label : List Char} (hlet : ∀ c ∈ label, isLetter c = true) :
    ∀ c, label.getLast? = some c → isCut c = false := by
  intro c hc
  have hmem : c ∈ label.getLast? := by rw [hc]; rfl
  obtain ⟨h9, rfl⟩ := List.mem_getLast?_eq_getLast hmem
  exact (isLetter_facts (hlet _ (List.getLast_mem h9))).2.1

/-! ### Stage reductions -/

lemma fracStage_nondot {c : Char} (h : c ≠ '.') (cs : List Char) :
    fracStage (c :: cs) = some (0, c :: cs) := by
  cases cs with
  | nil => simp [fracStage, h]
  | cons c2 cs2 => simp [fracStage, h]

lemma fracStage_half (r : List Char) : fracStage ('.' :: '5' :: r) = some (1, r) := rfl

lemma fracStage_zero (r : List Char) : fracStage ('.' :: '0' :: r) = some (0, r) := rfl

lemma spaceStage_space (r : List Char) : spaceStage (' ' :: r) = r := rfl

lemma spaceStage_nonspace {c : Char} (h : c ≠ ' ') (r : List Char) :
    spaceStage (c :: r) = c :: r := by
  simp [spaceStage, h]

lemma unitsStage_label {label : List Char} {mult : Nat} (hmem : (label, mult) ∈ unitMap)
    (num addHalf : Nat) :
    unitsStage num addHalf label =
      ((num * mult % U64 + mult / 2 * addHalf) % U64, none) := by
  obtain ⟨hne, hlet, _⟩ := unitMap_labels _ hmem
  obtain ⟨l1, ls, hEq, h1, _, _, _⟩ := label_head_facts hne hlet
  subst hEq
  have hlook := unitMap_lookup_self _ hmem
  simp only [unitsStage, h1]
  rw [if_neg (by simp [h1])]
  rw [hlook]


lemma lookup_of_mem {label : List Char} {mult : Nat} (h : (label, mult) ∈ unitMap) :
    List.lookup label unitMap = some mult :=
  unitMap_lookup_self _ h

lemma labels_of_mem {label : List Char} {mult : Nat} (h : (label, mult) ∈ unitMap) :
    label ≠ [] ∧ (∀ c ∈ label, isLetter c = true) ∧ 1000 ≤ mult :=
  unitMap_labels _ h

/-- Parsing a composed token: digits, an optional `".5"` or `".0"`, an optional single
space, and a unit label from the table, in uint64 arithmetic. -/
lemma parse_composed {n : Nat} (hn : n < U64) (frac : Option Bool) (sp : Bool)
    {label : List Char} {mult : Nat} (hmem : (label, mult) ∈ unitMap) :
    AsInt (formatUint n ++ (fracChars frac ++ (spChars sp ++ label))) =
      ((n * mult % U64 + mult / 2 * fracHalf frac) % U64, none) := by
  obtain ⟨hne, hlet, _⟩ := labels_of_mem hmem
  obtain ⟨l1, ls, hL, h1, hdot, hsp1, hhd1⟩ := label_head_facts hne hlet
  have hlastL := label_getLast_noncut hlet
  have hfrL : fracStage label = some (0, label) := by
    rw [hL]; exact fracStage_nondot hdot ls
  have hspL : spaceStage label = label := by
    rw [hL]; exact spaceStage_nonspace hsp1 ls
  have hheadL : ∀ c, label.head? = some c → c.toNat < 48 ∨ 57 < c.toNat := by
    intro c hc
    rw [hL, List.head?_cons, Option.some_inj] at hc
    subst hc
    exact hhd1
  have hfin := unitsStage_label hmem n
  have hspS : spaceStage (' ' :: label) = label := spaceStage_space label
  have hlastS : ∀ c, (' ' :: label).getLast? = some c → isCut c = false := by
    intro c hc
    rw [show (' ' :: label) = [' '] ++ label from rfl,
      List.getLast?_append_of_ne_nil _ hne] at hc
    exact hlastL c hc
  cases sp with
  | false =>
    simp only [spChars, List.nil_append]
    cases frac with
    | none =>
      simp only [fracChars, fracHalf, List.nil_append]
      rw [AsInt_append hn hne hheadL hlastL]
      rw [hfrL]
      show unitsStage n 0 (spaceStage label) = _
      rw [hspL]
      exact hfin 0
    | some b =>
      have hlast2 : ∀ c, (fracChars (some b) ++ label).getLast? = some c →
          isCut c = false := by
        intro c hc
        rw [List.getLast?_append_of_ne_nil _ hne] at hc
        exact hlastL c hc
      have hhead2 : ∀ c, (fracChars (some b) ++ label).head? = some c →
          c.toNat < 48 ∨ 57 < c.toNat := by
        intro c hc
        cases b <;>
          (simp only [fracChars, List.cons_append, List.head?_cons,
            Option.some_inj] at hc; subst hc; decide)
      have hrne : fracChars (some b) ++ label ≠ [] := by cases b <;> simp [fracChars]
      have hstep := AsInt_append hn hrne hhead2 hlast2
      cases b with
      | false =>
        simp only [fracChars, List.cons_append, List.nil_append] at hstep ⊢
        rw [hstep, fracStage_zero]
        show unitsStage n 0 (spaceStage label) = _
        rw [hspL]
        simpa [fracHalf] using hfin 0
      | true =>
        simp only [fracChars, List.cons_append, List.nil_append] at hstep ⊢
        rw [hstep, fracStage_half]
        show unitsStage n 1 (spaceStage label) = _
        rw [hspL]
        simpa [fracHalf] using hfin 1
  | true =>
    simp only [spChars, List.singleton_append]
    have hfrS : fracStage (' ' :: label) = some (0, ' ' :: label) :=
      fracStage_nondot (by decide) label
    cases frac with
    | none =>
      simp only [fracChars, fracHalf, List.nil_append]
      rw [AsInt_append hn (by simp) (by
        intro c hc
        rw [List.head?_cons, Option.some_inj] at hc
        subst hc
        decide) hlastS]
      rw [hfrS]
      show unitsStage n 0 (spaceStage (' ' :: label)) = _
      rw [hspS]
      exact hfin 0
    | some b =>
      have hlast3 : ∀ c, (fracChars (some b) ++ (' ' :: label)).getLast? = some c →
          isCut c = false := by
        intro c hc
        rw [List.getLast?_append_of_ne_nil _ (by simp)] at hc
        exact hlastS c hc
      have hhead3 : ∀ c, (fracChars (some b) ++ (' ' :: label)).head? = some c →
          c.toNat < 48 ∨ 57 < c.toNat := by
        intro c hc
        cases b <;>
          (simp only [fracChars, List.cons_append, List.head?_cons,
            Option.some_inj] at hc; subst hc; decide)
      have hrne3 : fracChars (some b) ++ (' ' :: label) ≠ [] := by
        cases b <;> simp [fracChars]
      have hstep := AsInt_append hn hrne3 hhead3 hlast3
      cases b with
      | false =>
        simp only [fracChars, List.cons_append, List.nil_append] at hstep ⊢
        rw [hstep, fracStage_zero]
        show unitsStage n 0 (spaceStage (' ' :: label)) = _
        rw [hspS]
        simpa [fracHalf] using hfin 0
      | true =>
        simp only [fracChars, List.cons_append, List.nil_append] at hstep ⊢
        rw [hstep, fracStage_half]
        show unitsStage n 1 (spaceStage (' ' :: label)) = _
        rw [hspS]
        simpa [fracHalf] using hfin 1

/-! ### The scale-index loop computes the floor logarithm -/

lemma scaleIdxAux_eq_log {base : Nat} (hb : 2 ≤ base) :
    ∀ fuel sz, Nat.log base sz ≤ fuel → scaleIdxAux fuel base sz = Nat.log base sz := by
  intro fuel
  induction fuel with
  | zero =>
    intro sz h
    have : Nat.log base sz = 0 := Nat.le_zero.mp h
    simp [scaleIdxAux, this]
  | succ fuel ih =>
    intro sz h
    by_cases hbs : base ≤ sz
    · have hpos : 0 < Nat.log base sz := Nat.log_pos (by omega) hbs
      have hdiv : Nat.log base (sz / base) = Nat.log base sz - 1 :=
        Nat.log_div_base base sz
      simp only [scaleIdxAux, if_pos hbs]
      rw [ih (sz / base) (by omega)]
      omega
    · simp only [scaleIdxAux, if_neg hbs]
      exact (Nat.log_of_lt (by omega)).symm

lemma scaleIdx_eq_log {base sz : Nat} (hb : 2 ≤ base) (hsz : sz < U64) :
    scaleIdx base sz = Nat.log base sz := by
  apply scaleIdxAux_eq_log hb
  rcases Nat.eq_zero_or_pos sz with h0 | h0
  · subst h0
    simp
  · have h2 : Nat.log base sz ≤ Nat.log 2 sz := Nat.log_anti_left (by omega) hb
    have h3 : Nat.log 2 sz < 64 :=
      Nat.log_lt_of_lt_pow (by omega) (by simpa [U64] using hsz)
    omega

/-! ### Family facts for the two unit tables -/

lemma fam10 : ∀ i, 1 ≤ i → i ≤ 6 →
    valuesBase10.getD i 0 = 1000 ^ i ∧
    (unitsBase10.getD i [], 1000 ^ i) ∈ unitMap := by
  intro i h1 h6
  interval_cases i <;> exact ⟨by decide, by decide⟩

lemma fam2 : ∀ i, 1 ≤ i → i ≤ 6 →
    valuesBase2.getD i 0 = 1024 ^ i ∧
    (unitsBase2.getD i [], 1024 ^ i) ∈ unitMap := by
  intro i h1 h6
  interval_cases i <;> exact ⟨by decide, by decide⟩

/-! ### The formatter's unit branches -/

lemma fmtScaled_eq {b : Nat} (hb : 2 ≤ b) (hpow : U64 ≤ b ^ 7)
    {values : List Nat} {units : List (List Char)}
    (hfam : ∀ i, 1 ≤ i → i ≤ 6 →
      values.getD i 0 = b ^ i ∧ (units.getD i [], b ^ i) ∈ unitMap)
    {v : Nat} (hv : v < U64) (hbv : b ≤ v) :
    1 ≤ scaleIdx b v ∧ scaleIdx b v ≤ 6 ∧
    fmtScaled b values units v =
      formatUint (v / b ^ scaleIdx b v) ++
        (fracChars (if v % b ^ scaleIdx b v = 0 then none else some true) ++
          (spChars false ++ units.getD (scaleIdx b v) [])) := by
  have hv0 : v ≠ 0 := by omega
  have hlog : scaleIdx b v = Nat.log b v := scaleIdx_eq_log hb hv
  have h1 : 1 ≤ scaleIdx b v := by
    rw [hlog]
    exact Nat.log_pos (by omega) hbv
  have h6 : scaleIdx b v ≤ 6 := by
    rw [hlog]
    have : Nat.log b v < 7 := Nat.log_lt_of_lt_pow hv0 (lt_of_lt_of_le hv hpow)
    omega
  obtain ⟨hval, hmem⟩ := hfam _ h1 h6
  refine ⟨h1, h6, ?_⟩
  simp only [fmtScaled]
  rw [hval]
  by_cases hr : v % b ^ scaleIdx b v = 0
  · simp [hr, fracChars, spChars, List.append_assoc]
  · simp [hr, fracChars, spChars, List.append_assoc]

lemma fmtScaled_asInt {b : Nat} (hb : 2 ≤ b) (hpow : U64 ≤ b ^ 7)
    {values : List Nat} {units : List (List Char)}
    (hfam : ∀ i, 1 ≤ i → i ≤ 6 →
      values.getD i 0 = b ^ i ∧ (units.getD i [], b ^ i) ∈ unitMap)
    {v : Nat} (hv : v < U64) (hbv : b ≤ v) :
    AsInt (fmtScaled b values units v) =
      ((v / b ^ scaleIdx b v * b ^ scaleIdx b v +
        (if v % b ^ scaleIdx b v = 0 then 0 else b ^ scaleIdx b v / 2)) % U64, none) := by
  obtain ⟨h1, h6, hshape⟩ := fmtScaled_eq hb hpow hfam hv hbv
  obtain ⟨hval, hmem⟩ := hfam _ h1 h6
  have hq : v / b ^ scaleIdx b v < U64 := lt_of_le_of_lt (Nat.div_le_self _ _) hv
  rw [hshape, parse_composed hq _ false hmem]
  rw [Nat.mod_add_mod]
  by_cases hr : v % b ^ scaleIdx b v = 0
  · simp [hr, fracHalf]
  · simp [hr, fracHalf]

lemma roundtrip_core {b : Nat} (hb : 2 ≤ b) (hpow : U64 ≤ b ^ 7)
    {values : List Nat} {units : List (List Char)}
    (hfam : ∀ i, 1 ≤ i → i ≤ 6 →
      values.getD i 0 = b ^ i ∧ (units.getD i [], b ^ i) ∈ unitMap)
    {v : Nat} (hv : v < U64) (hbv : b ≤ v) :
    (AsInt (fmtScaled b values units v)).2 = none ∧
    ((v % b ^ scaleIdx b v = 0 ∨ v % b ^ scaleIdx b v = b ^ scaleIdx b v / 2) →
      AsInt (fmtScaled b values units v) = (v, none)) := by
  have h := fmtScaled_asInt hb hpow hfam hv hbv
  constructor
  · rw [h]
  · intro hr
    rw [h]
    by_cases h0 : v % b ^ scaleIdx b v = 0
    · rw [if_pos h0, Nat.div_mul_cancel (Nat.dvd_of_mod_eq_zero h0), Nat.add_zero,
        Nat.mod_eq_of_lt hv]
    · have hr2 : v % b ^ scaleIdx b v = b ^ scaleIdx b v / 2 := hr.resolve_left h0
      rw [if_neg h0]
      have heq : v / b ^ scaleIdx b v * b ^ scaleIdx b v + b ^ scaleIdx b v / 2 = v := by
        rw [← hr2, Nat.mul_comm]
        exact Nat.div_add_mod v (b ^ scaleIdx b v)
      rw [heq, Nat.mod_eq_of_lt hv]

/-! ### The four branches of AsStr -/

lemma AsStr_small {v : Nat} (h : v < 1000) : AsStr v = formatUint v := if_pos h

lemma AsStr_dec {v : Nat} (h1 : ¬ v < 1000) (h2 : v % 500 = 0) :
    AsStr v = fmtScaled 1000 valuesBase10 unitsBase10 v := by
  simp [AsStr, h1, h2]

lemma AsStr_bin {v : Nat} (h1 : ¬ v < 1000) (h2 : v % 500 ≠ 0) (h3 : v % 512 = 0) :
    AsStr v = fmtScaled 1024 valuesBase2 unitsBase2 v := by
  simp [AsStr, h1, h2, h3]

lemma AsStr_plain {v : Nat} (h1 : ¬ v < 1000) (h2 : v % 500 ≠ 0) (h3 : v % 512 ≠ 0) :
    AsStr v = formatUint v := by
  simp [AsStr, h1, h2, h3]

lemma binary_ge {v : Nat} (h1 : 1000 ≤ v) (h2 : v % 512 = 0) : 1024 ≤ v := by
  obtain ⟨k, rfl⟩ := Nat.dvd_of_mod_eq_zero h2
  omega

lemma U64_le_pow10_7 : U64 ≤ 1000 ^ 7 := by norm_num [U64]

lemma U64_le_pow2_7 : U64 ≤ 1024 ^ 7 := by norm_num [U64]

/-! ### Claim theorems -/

/-- Claim C1 (counterexample): the uint64 value 1500500 refutes the claim that
`AsInt (AsStr v)` recovers every `v`: it formats as `"1.5mb"`, which parses back to
1500000, and the remainder `1500500 % values[2]` is 500500, not half of 1000000. -/
theorem claim_C1_counterexample :
    AsStr 1500500 = "1.5mb".toList ∧
    AsInt (AsStr 1500500) = (1500000, none) ∧
    1500000 ≠ 1500500 ∧
    1500500 % 1000000 = 500500 ∧ (500500 : Nat) ≠ 1000000 / 2 := by
  decide

/-- Claim C1 (amended): for every uint64 value `v`, `AsInt (AsStr v)` succeeds (nil
error), and it returns `v` exactly whenever the remainder of `v` by the multiplier
`values[idx]` chosen by `AsStr` is zero or exactly half that multiplier (in
particular in both plain-digit branches, where the multiplier is 1). -/
theorem claim_C1_roundtrip (v : Nat) (hv : v < U64) :
    (AsInt (AsStr v)).2 = none ∧
    ((v % chosenMult v = 0 ∨ v % chosenMult v = chosenMult v / 2) →
      AsInt (AsStr v) = (v, none)) := by
  by_cases hsmall : v < 1000
  · have hint : AsInt (formatUint v) = (v % U64, none) :=
      AsInt_formatUint (lt_trans hv U64_lt_pow20)
    rw [AsStr_small hsmall, hint, Nat.mod_eq_of_lt hv]
    exact ⟨rfl, fun _ => rfl⟩
  · by_cases hdec : v % 500 = 0
    · have hcm : chosenMult v = 1000 ^ scaleIdx 1000 v := by
        simp [chosenMult, hsmall, hdec]
      have hcore := roundtrip_core (by norm_num) U64_le_pow10_7 fam10 hv
        (by omega)
      rw [AsStr_dec hsmall hdec, hcm]
      exact hcore
    · by_cases hbin : v % 512 = 0
      · have hcm : chosenMult v = 1024 ^ scaleIdx 1024 v := by
          simp [chosenMult, hsmall, hdec, hbin]
        have hcore := roundtrip_core (by norm_num) U64_le_pow2_7 fam2 hv
          (binary_ge (by omega) hbin)
        rw [AsStr_bin hsmall hdec hbin, hcm]
        exact hcore
      · have hint : AsInt (formatUint v) = (v % U64, none) :=
          AsInt_formatUint (lt_trans hv U64_lt_pow20)
        rw [AsStr_plain hsmall hdec hbin, hint, Nat.mod_eq_of_lt hv]
        exact ⟨rfl, fun _ => rfl⟩

theorem claim_C1_witness :
    3000 < U64 ∧ AsInt (AsStr 3000) = (3000, none) :=
  ⟨by decide, (claim_C1_roundtrip 3000 (by decide)).2 (by decide)⟩

/-- Claim C2 (counterexample): 1001000 is exactly divisible by the decimal unit
multiplier `1000 ^ 1`, yet `AsStr 1001000 = "1.5mb"` does not end in the
corresponding label `"kb"`, and parsing it back yields 1500000, not 1001000. -/
theorem claim_C2_counterexample :
    1001000 % 1000 ^ 1 = 0 ∧
    AsStr 1001000 = "1.5mb".toList ∧
    AsInt (AsStr 1001000) = (1500000, none) ∧ 1500000 ≠ 1001000 := by
  decide

/-- Claim C2 (amended): for every uint64 value `v` exactly divisible by
`1000 ^ i` (`1 ≤ i ≤ 6`) whose magnitude also lies at scale `i` (that is,
`1000 ^ i ≤ v < 1000 ^ (i + 1)`), `AsStr v` is the digit string of `v / 1000 ^ i`
followed by the corresponding lowercase label, and `AsInt (AsStr v) = v` with no
error.  Divisibility by a smaller power alone does not suffice (see the
counterexample). -/
theorem claim_C2_roundtrip (v i : Nat) (h1 : 1 ≤ i) (h6 : i ≤ 6) (hv : v < U64)
    (hlo : 1000 ^ i ≤ v) (hhi : v < 1000 ^ (i + 1)) (hdvd : v % 1000 ^ i = 0) :
    AsStr v = formatUint (v / 1000 ^ i) ++ unitsBase10.getD i [] ∧
    AsInt (AsStr v) = (v, none) := by
  have h1000 : (1000 : Nat) ≤ 1000 ^ i := by
    calc (1000 : Nat) = 1000 ^ 1 := (pow_one 1000).symm
      _ ≤ 1000 ^ i := Nat.pow_le_pow_right (by norm_num) h1
  have hsmall : ¬ v < 1000 := by omega
  have hdec : v % 500 = 0 := by
    have hd : (500 : Nat) ∣ 1000 ^ i :=
      dvd_trans ⟨2, by norm_num⟩ (dvd_pow_self 1000 (by omega : i ≠ 0))
    exact Nat.mod_eq_zero_of_dvd (dvd_trans hd (Nat.dvd_of_mod_eq_zero hdvd))
  have hidx : scaleIdx 1000 v = i := by
    rw [scaleIdx_eq_log (by norm_num) hv]
    exact Nat.log_eq_of_pow_le_of_lt_pow hlo hhi
  obtain ⟨_, _, hsh⟩ :=
    fmtScaled_eq (by norm_num) U64_le_pow10_7 fam10 hv (by omega)
  have hcore := roundtrip_core (by norm_num) U64_le_pow10_7 fam10 hv
    (by omega)
  have hfmt := AsStr_dec hsmall hdec
  rw [hidx] at hsh
  constructor
  · rw [hfmt, hsh, if_pos hdvd]
    simp [fracChars, spChars]
  · rw [hfmt]
    exact hcore.2 (by rw [hidx]; exact Or.inl hdvd)

theorem claim_C2_witness :
    AsStr 5000000000 = formatUint (5000000000 / 1000 ^ 3) ++ unitsBase10.getD 3 [] ∧
    AsInt (AsStr 5000000000) = (5000000000, none) :=
  claim_C2_roundtrip 5000000000 3 (by decide) (by decide) (by decide) (by decide)
    (by decide) (by decide)

/-- Claim C3: `AsStr` is total (always returns a nonempty string, never an error) and
selects its output in this order: plain digits below 1000; otherwise the decimal
family if the value is divisible by 500; otherwise the binary family if divisible by
512; otherwise the plain digit string, even for large values. -/
theorem claim_C3_structure (v : Nat) (hv : v < U64) :
    AsStr v ≠ [] ∧
    (v < 1000 → AsStr v = formatUint v) ∧
    (¬ v < 1000 → v % 500 = 0 → AsStr v = fmtScaled 1000 valuesBase10 unitsBase10 v) ∧
    (¬ v < 1000 → v % 500 ≠ 0 → v % 512 = 0 →
      AsStr v = fmtScaled 1024 valuesBase2 unitsBase2 v) ∧
    (¬ v < 1000 → v % 500 ≠ 0 → v % 512 ≠ 0 → AsStr v = formatUint v) := by
  have hfne : formatUint v ≠ [] := (formatUint_spec (lt_trans hv U64_lt_pow20)).1
  refine ⟨?_, fun h => AsStr_small h, fun h1 h2 => AsStr_dec h1 h2,
    fun h1 h2 h3 => AsStr_bin h1 h2 h3, fun h1 h2 h3 => AsStr_plain h1 h2 h3⟩
  have hq : ∀ m : Nat, formatUint (v / m) ≠ [] := by
    intro m
    apply (formatUint_spec ?_).1
    have hle : v / m ≤ v := Nat.div_le_self _ _
    have := U64_lt_pow20
    omega
  by_cases hsmall : v < 1000
  · rw [AsStr_small hsmall]
    exact hfne
  · by_cases hdec : v % 500 = 0
    · rw [AsStr_dec hsmall hdec]
      obtain ⟨_, _, hsh⟩ :=
        fmtScaled_eq (by norm_num) U64_le_pow10_7 fam10 hv (by omega)
      rw [hsh]
      intro hc
      exact hq _ (List.append_eq_nil.mp hc).1
    · by_cases hbin : v % 512 = 0
      · rw [AsStr_bin hsmall hdec hbin]
        obtain ⟨_, _, hsh⟩ :=
          fmtScaled_eq (by norm_num) U64_le_pow2_7 fam2 hv
            (binary_ge (by omega) hbin)
        rw [hsh]
        intro hc
        exact hq _ (List.append_eq_nil.mp hc).1
      · rw [AsStr_plain hsmall hdec hbin]
        exact hfne

theorem claim_C3_witness :
    314159265359 < U64 ∧ AsStr 314159265359 ≠ [] ∧
    AsStr 314159265359 = formatUint 314159265359 := by
  refine ⟨by decide, (claim_C3_structure 314159265359 (by decide)).1,
    (claim_C3_structure 314159265359 (by decide)).2.2.2.2 (by decide) (by decide)
      (by decide)⟩

/-- Claim C4: the two formatter implementations are not equivalent.  At the uint64
input 131072 = 2^17 (where the modelled float logarithm is exact), the digit-count
implementation `AsString` returns `"0.5MiB"` while the division-loop implementation
`AsStr` returns `"128KiB"`. -/
theorem claim_C4_divergence :
    AsString 131072 = "0.5MiB".toList ∧ AsStr 131072 = "128KiB".toList ∧
    AsString 131072 ≠ AsStr 131072 := by
  decide

/-- Claim C5: the parser accepts the listed inputs with the listed exact values, and
in general a token made of digits, an optional `".5"` or `".0"`, an optional single
space and any recognized label parses to magnitude times multiplier, plus half the
multiplier when `".5"` was present (stated below the no-overflow bound). -/
theorem claim_C5_parse :
    AsInt "4321".toList = (4321, none) ∧
    AsInt "4kb".toList = (4000, none) ∧
    AsInt "4.0k".toList = (4000, none) ∧
    AsInt "4.5k".toList = (4500, none) ∧
    AsInt "4 GiB".toList = (4294967296, none) ∧
    AsInt "4.0 GiB".toList = (4294967296, none) ∧
    AsInt "4.5 GiB".toList = (4831838208, none) ∧
    ∀ (n : Nat) (frac : Option Bool) (sp : Bool) (label : List Char) (mult : Nat),
      (label, mult) ∈ unitMap → n * mult + mult / 2 < U64 →
      AsInt (formatUint n ++ (fracChars frac ++ (spChars sp ++ label))) =
        (n * mult + (if frac = some true then mult / 2 else 0), none) := by
  refine ⟨by decide, by decide, by decide, by decide, by decide, by decide, by decide,
    ?_⟩
  intro n frac sp label mult hmem hlt
  have hmult : 1000 ≤ mult := (labels_of_mem hmem).2.2
  have hn : n < U64 := by
    have : n ≤ n * mult := Nat.le_mul_of_pos_right n (by omega)
    omega
  rw [parse_composed hn frac sp hmem]
  have hnm : n * mult % U64 = n * mult := Nat.mod_eq_of_lt (by omega)
  rw [hnm]
  cases frac with
  | none =>
    simp only [fracHalf, Nat.mul_zero, Nat.add_zero]
    rw [Nat.mod_eq_of_lt (by omega)]
    simp
  | some b =>
    cases b with
    | false =>
      simp only [fracHalf, Nat.mul_zero, Nat.add_zero]
      rw [Nat.mod_eq_of_lt (by omega)]
      simp
    | true =>
      simp only [fracHalf, Nat.mul_one]
      rw [Nat.mod_eq_of_lt (by omega)]
      simp

theorem claim_C5_witness :
    ("GiB".toList, (1073741824 : Nat)) ∈ unitMap ∧
    4 * 1073741824 + 1073741824 / 2 < U64 ∧
    AsInt (formatUint 4 ++ (fracChars (some true) ++ (spChars true ++ "GiB".toList))) =
      (4831838208, none) := by
  refine ⟨by decide, by decide, ?_⟩
  have h := claim_C5_parse.2.2.2.2.2.2.2 4 (some true) true "GiB".toList 1073741824
    (by decide) (by decide)
  simpa using h

/-- Claim C6: the parser returns an error together with the zero value on each of the
listed malformed inputs: empty string, no digits, fraction with no unit, malformed
fraction, unsupported fraction, an embedded tab, and a double space. -/
theorem claim_C6_rejects :
    ((AsInt "".toList).1 = 0 ∧ (AsInt "".toList).2.isSome = true) ∧
    ((AsInt "mb".toList).1 = 0 ∧ (AsInt "mb".toList).2.isSome = true) ∧
    ((AsInt "2.5".toList).1 = 0 ∧ (AsInt "2.5".toList).2.isSome = true) ∧
    ((AsInt "2.mb".toList).1 = 0 ∧ (AsInt "2.mb".toList).2.isSome = true) ∧
    ((AsInt "2.9mb".toList).1 = 0 ∧ (AsInt "2.9mb".toList).2.isSome = true) ∧
    ((AsInt "2\tmb".toList).1 = 0 ∧ (AsInt "2\tmb".toList).2.isSome = true) ∧
    ((AsInt "2  mb".toList).1 = 0 ∧ (AsInt "2  mb".toList).2.isSome = true) := by
  decide

/-- Claim C7: case disambiguation.  `"4k"`, `"4kb"`, `"4kB"` all parse to 4000 and
`"4K"`, `"4KB"`, `"4Kb"`, `"4KiB"` all parse to 4096; and every table label whose
first letter is lowercase maps to a power of 1000 while every label whose first
letter is uppercase maps to a power of 1024. -/
theorem claim_C7_case :
    AsInt "4k".toList = (4000, none) ∧ AsInt "4kb".toList = (4000, none) ∧
    AsInt "4kB".toList = (4000, none) ∧
    AsInt "4K".toList = (4096, none) ∧ AsInt "4KB".toList = (4096, none) ∧
    AsInt "4Kb".toList = (4096, none) ∧ AsInt "4KiB".toList = (4096, none) ∧
    ∀ lm ∈ unitMap, caseFamilyProp lm := by
  refine ⟨by decide, by decide, by decide, by decide, by decide, by decide, by decide,
    by decide⟩

theorem claim_C7_witness :
    (("kb".toList, (1000 : Nat)) ∈ unitMap) ∧ caseFamilyProp ("kb".toList, 1000) :=
  ⟨by decide, claim_C7_case.2.2.2.2.2.2.2 _ (by decide)⟩

/-- Claim C8: `Size.MarshalText` returns the bytes of `AsStr` on the value with a nil
error; `Size.UnmarshalText` returns exactly the error of `AsInt` on the input, leaves
the receiver unchanged on error, and sets it to the parsed byte count on success. -/
theorem claim_C8_marshal (sz : Size) (s : List Char) :
    Size.MarshalText sz = (AsStr sz, none) ∧
    (Size.UnmarshalText sz s).2 = (AsInt s).2 ∧
    ((AsInt s).2 = none → Size.UnmarshalText sz s = ((AsInt s).1, none)) ∧
    (∀ e, (AsInt s).2 = some e → Size.UnmarshalText sz s = (sz, some e)) := by
  rcases hA : AsInt s with ⟨val, err⟩
  cases err with
  | none =>
    refine ⟨rfl, ?_, ?_, ?_⟩
    · simp [Size.UnmarshalText, hA]
    · intro _
      simp [Size.UnmarshalText, hA]
    · intro e he
      simp at he
  | some e0 =>
    refine ⟨rfl, ?_, ?_, ?_⟩
    · simp [Size.UnmarshalText, hA]
    · intro h
      simp at h
    · intro e he
      simp only [Option.some_inj] at he
      subst he
      simp [Size.UnmarshalText, hA]

theorem claim_C8_witness :
    Size.MarshalText 3 = (AsStr 3, none) ∧
    (AsInt "50mb".toList).2 = none ∧
    Size.UnmarshalText 3 "50mb".toList = ((AsInt "50mb".toList).1, none) ∧
    (AsInt "2.5".toList).2 = some "missing units" ∧
    Size.UnmarshalText 7 "2.5".toList = (7, some "missing units") :=
  ⟨(claim_C8_marshal 3 "50mb".toList).1, by decide,
    (claim_C8_marshal 3 "50mb".toList).2.2.1 (by decide), by decide,
    (claim_C8_marshal 7 "2.5".toList).2.2.2 _ (by decide)⟩

/-- Claim C9: for uint64 inputs in the decimal branch (at least 1000 and divisible by
500) or the binary branch (divisible by 512), the division-loop index satisfies
`1 ≤ idx ≤ 6`, so every access into the seven-element values and units slices is in
bounds and the divisor `values[idx]` is nonzero. -/
theorem claim_C9_bounds (v : Nat) (hv : v < U64) (hge : 1000 ≤ v) :
    (v % 500 = 0 →
      1 ≤ scaleIdx 1000 v ∧ scaleIdx 1000 v ≤ 6 ∧
      scaleIdx 1000 v < valuesBase10.length ∧ scaleIdx 1000 v < unitsBase10.length ∧
      valuesBase10.getD (scaleIdx 1000 v) 0 ≠ 0) ∧
    (v % 512 = 0 →
      1 ≤ scaleIdx 1024 v ∧ scaleIdx 1024 v ≤ 6 ∧
      scaleIdx 1024 v < valuesBase2.length ∧ scaleIdx 1024 v < unitsBase2.length ∧
      valuesBase2.getD (scaleIdx 1024 v) 0 ≠ 0) := by
  constructor
  · intro _
    obtain ⟨h1, h6, _⟩ :=
      fmtScaled_eq (by norm_num) U64_le_pow10_7 fam10 hv (by omega)
    refine ⟨h1, h6, ?_, ?_, ?_⟩
    · rw [show valuesBase10.length = 7 from rfl]
      omega
    · rw [show unitsBase10.length = 7 from rfl]
      omega
    · rw [(fam10 _ h1 h6).1]
      exact pow_ne_zero _ (by norm_num)
  · intro hbin
    have hbv := binary_ge hge hbin
    obtain ⟨h1, h6, _⟩ :=
      fmtScaled_eq (by norm_num) U64_le_pow2_7 fam2 hv hbv
    refine ⟨h1, h6, ?_, ?_, ?_⟩
    · rw [show valuesBase2.length = 7 from rfl]
      omega
    · rw [show unitsBase2.length = 7 from rfl]
      omega
    · rw [(fam2 _ h1 h6).1]
      exact pow_ne_zero _ (by norm_num)

theorem claim_C9_witness :
    1049088 < U64 ∧ 1000 ≤ 1049088 ∧ 1049088 % 512 = 0 ∧
    1 ≤ scaleIdx 1024 1049088 ∧ scaleIdx 1024 1049088 ≤ 6 ∧
    valuesBase2.getD (scaleIdx 1024 1049088) 0 ≠ 0 := by
  have h := (claim_C9_bounds 1049088 (by decide) (by decide)).2 (by decide)
  exact ⟨by decide, by decide, by decide, h.1, h.2.1, h.2.2.2.2⟩

/-- Claim C10: `AsInt` wraps modulo 2^64 with no overflow detection: the digit string
of 2^64 parses to 0 with nil error, `"1000000000eb"` parses to `10^27 mod 2^64` with
nil error, and in general the digit string of any `n` parses to `n mod 2^64`. -/
theorem claim_C10_wrap :
    AsInt "18446744073709551616".toList = (0, none) ∧
    (18446744073709551616 : Nat) = U64 ∧
    AsInt "1000000000eb".toList = (10 ^ 27 % U64, none) ∧
    10 ^ 27 % U64 ≠ 10 ^ 27 ∧
    ∀ n : Nat, n < 10 ^ 20 → AsInt (formatUint n) = (n % U64, none) := by
  refine ⟨by decide, by decide, by decide, by decide, fun n hn => AsInt_formatUint hn⟩

theorem claim_C10_witness :
    18446744073709551617 < 10 ^ 20 ∧
    AsInt (formatUint 18446744073709551617) = (1, none) := by
  refine ⟨by decide, ?_⟩
  have h := claim_C10_wrap.2.2.2.2 18446744073709551617 (by decide)
  rw [h]
  decide
